import Mathlib

/-!
Verification of the field-extraction core of the tour-request processor
(`TourProcessor.extract_data` in `src/main.py`).

Strings are modelled as `List Char`; Python's `str.strip` becomes `strip`,
`str.split` on a newline becomes `splitOnNl`, `str.split(c, 1)` becomes
`splitFirstColon`, `str.startswith` becomes `startsWith`, `str.replace(p, q)`
with empty replacement becomes `removeAll`, and a Python `dict` becomes an
association list where the most recent insertion is found first (`dinsert`,
`dget`), matching last-write-wins lookup semantics.
-/

/-- Convert a Lean string literal to the character-list model. -/
def toL (s : String) : List Char := s.data

/-- Whitespace characters removed by Python `str.strip()` (ASCII subset). -/
def isWS (c : Char) : Bool :=
  c == ' ' || c == '\t' || c == '\n' || c == '\r' || c == '\x0b' || c == '\x0c'

/-- Remove leading whitespace. -/
def stripL (s : List Char) : List Char := s.dropWhile isWS

/-- Remove trailing whitespace. -/
def stripR (s : List Char) : List Char := (s.reverse.dropWhile isWS).reverse

/-- Python `str.strip()`: remove leading and trailing whitespace. -/
def strip (s : List Char) : List Char := stripR (stripL s)

/-- Python `str.split(chr(10))`: split on every newline; `[]` yields `[[]]`. -/
def splitOnNl : List Char → List (List Char)
  | [] => [[]]
  | c :: cs =>
    if c = '\n' then [] :: splitOnNl cs
    else
      match splitOnNl cs with
      | [] => [[c]]
      | l :: ls => (c :: l) :: ls

/-- `lines = [line.strip() for line in raw_data.split(chr(10)) if line.strip()]`
(src/main.py:71). -/
def linesOf (raw : List Char) : List (List Char) :=
  ((splitOnNl raw).map strip).filter (fun l => l ≠ [])

/-- Python `line.split(colon, 1)` when the line contains a colon: the part
before the first colon and the part after it. -/
def splitFirstColon : List Char → Option (List Char × List Char)
  | [] => none
  | c :: cs =>
    if c = ':' then some ([], cs)
    else (splitFirstColon cs).map (fun p => (c :: p.1, p.2))

/-- Python `s.startswith(pat)` on the character-list model. -/
def startsWith : List Char → List Char → Bool
  | [], _ => true
  | _ :: _, [] => false
  | p :: ps, c :: cs => p == c && startsWith ps cs

/-- Fuelled worker for `removeAll`; the fuel is the length of the scanned
list, which bounds the number of steps. -/
def removeAllGo (pat : List Char) : Nat → List Char → List Char
  | _, [] => []
  | 0, s => s
  | fuel + 1, c :: cs =>
    if startsWith pat (c :: cs) then
      removeAllGo pat fuel (List.drop pat.length (c :: cs))
    else
      c :: removeAllGo pat fuel cs

/-- Python `s.replace(pat, empty)`: delete every non-overlapping occurrence
of `pat`, scanning left to right. -/
def removeAll (pat s : List Char) : List Char := removeAllGo pat s.length s

/-- A Python `dict` with string keys and values, as an association list in
which the most recently inserted binding comes first. -/
abbrev Dict := List (List Char × List Char)

/-- `d[k] = v`: insert at the front, shadowing any earlier binding. -/
def dinsert (d : Dict) (k v : List Char) : Dict := (k, v) :: d

/-- `d.get(k, empty)`: the most recent binding of `k`, or `[]` when absent. -/
def dget (d : Dict) (k : List Char) : List Char :=
  match d.find? (fun p => decide (p.1 = k)) with
  | some p => p.2
  | none => []

/-- One step of the flat-field pass (src/main.py:75-80): a line containing a
colon is split on the first colon, both halves are trimmed and inserted. -/
def flatStep (d : Dict) (line : List Char) : Dict :=
  match splitFirstColon line with
  | some p => dinsert d (strip p.1) (strip p.2)
  | none => d

/-- The `data` dict of `extract_data` (src/main.py:72-80). -/
def flatFields (lines : List (List Char)) : Dict := lines.foldl flatStep []

/-- The paired-line scan (src/main.py:84-92): when line `i` starts with
`Name:` and line `i+1` exists and starts with `Value:`, record the pair and
advance by two lines, otherwise advance by one.  The recorded key and value
are the two lines with `str.replace` applied (every occurrence of the
pattern deleted) and then trimmed. -/
def scanPairs : List (List Char) → List (List Char × List Char)
  | [] => []
  | [_] => []
  | l1 :: l2 :: rest =>
    if startsWith (toL "Name:") l1 && startsWith (toL "Value:") l2 then
      (strip (removeAll (toL "Name:") l1), strip (removeAll (toL "Value:") l2))
        :: scanPairs rest
    else
      scanPairs (l2 :: rest)

/-- Insert a list of pairs into an initially empty dict, in order; later
pairs shadow earlier ones. -/
def toDict (ps : List (List Char × List Char)) : Dict :=
  ps.foldl (fun d p => dinsert d p.1 p.2) []

/-- The `name_value_pairs` dict of `extract_data` (src/main.py:83-92). -/
def name_value_pairs (lines : List (List Char)) : Dict :=
  toDict (scanPairs lines)

/-- `sep.join(parts)` on the character-list model. -/
def joinSep (sep : List Char) : List (List Char) → List Char
  | [] => []
  | [x] => x
  | x :: y :: ys => x ++ sep ++ joinSep sep (y :: ys)

/-- The `date_requested` fallback chain (src/main.py:95-102). -/
def date_requested (nvp : Dict) : List Char :=
  let d0 := dget nvp (toL "Tour Requested Date")
  if d0 = [] then
    let d1 := dget nvp (toL "White House Date 1")
    let d3 := dget nvp (toL "White House Date 3")
    if d1 ≠ [] ∧ d3 ≠ [] then d1 ++ toL " - " ++ d3
    else if d1 ≠ [] then d1
    else d0
  else d0

/-- The `comments_parts` list (src/main.py:105-119): the Tour, Visitors and
Channel segments, each appended when its paired value is non-empty, then the
Address segment when at least one of the five flat address fields is
non-empty. -/
def comments_parts (data nvp : Dict) : List (List Char) :=
  (if dget nvp (toL "Tours Requested") ≠ [] then
    [toL "Tour: " ++ dget nvp (toL "Tours Requested")] else []) ++
  (if dget nvp (toL "Name of Visitors") ≠ [] then
    [toL "Visitors: " ++ dget nvp (toL "Name of Visitors")] else []) ++
  (if dget nvp (toL "Channel") ≠ [] then
    [toL "Channel: " ++ dget nvp (toL "Channel")] else []) ++
  (let aps :=
    ([toL "Address1", toL "Address2", toL "City", toL "State", toL "ZipCode"].map
      (fun f => dget data f)).filter (fun v => v ≠ []);
   if aps ≠ [] then [toL "Address: " ++ joinSep (toL ", ") aps] else [])

/-- `full_name` (src/main.py:121): first and last name joined by one space,
then stripped. -/
def full_name (data : Dict) : List Char :=
  strip (dget data (toL "FirstName") ++ toL " " ++ dget data (toL "LastName"))

/-- The fixed 8-field output record of `extract_data` (src/main.py:123-132);
every field is a string. -/
structure ExtractedRecord where
  name : List Char
  email : List Char
  phone : List Char
  dates_requested : List Char
  party_of : List Char
  rsvp_link : List Char
  unable : List Char
  comments : List Char

/-- `TourProcessor.extract_data` (src/main.py:69-132). -/
def extract_data (raw : List Char) : ExtractedRecord :=
  let lines := linesOf raw
  let data := flatFields lines
  let nvp := name_value_pairs lines
  { name := full_name data
  , email := dget data (toL "EmailAddress")
  , phone := dget data (toL "PhoneNumber")
  , dates_requested := date_requested nvp
  , party_of := dget nvp (toL "Total Number of People in Party")
  , rsvp_link := []
  , unable := []
  , comments := joinSep (toL "; ") (comments_parts data nvp) }

/-- Modelled from the claim's words, for comparison with the code: the
pattern removed once, from the front only, leaving any later occurrence in
place. -/
def dropPre (pat s : List Char) : List Char :=
  if startsWith pat s then List.drop pat.length s else s

/-- Modelled from the claim's words, for comparison with the code: the
value of the LAST line (in line order) containing a colon whose part before
the first colon trims to `k`, with both halves trimmed; `[]` when no such
line exists. -/
def flatSpecLookup (lines : List (List Char)) (k : List Char) : List Char :=
  match (lines.reverse.filterMap splitFirstColon).find?
      (fun p => decide (strip p.1 = k)) with
  | some p => strip p.2
  | none => []

/-- Modelled from the claim's words, for comparison with the code: collect,
in the fixed order Tour, Visitors, Channel, Address, each segment exactly
when it qualifies, and join the collected segments with a semicolon-space
separator. -/
def commentsSpec (data nvp : Dict) : List Char :=
  let aps :=
    ([toL "Address1", toL "Address2", toL "City", toL "State", toL "ZipCode"].map
      (fun f => dget data f)).filter (fun v => v ≠ [])
  joinSep (toL "; ") (List.filterMap id
    [ (if dget nvp (toL "Tours Requested") ≠ [] then
        some (toL "Tour: " ++ dget nvp (toL "Tours Requested")) else none)
    , (if dget nvp (toL "Name of Visitors") ≠ [] then
        some (toL "Visitors: " ++ dget nvp (toL "Name of Visitors")) else none)
    , (if dget nvp (toL "Channel") ≠ [] then
        some (toL "Channel: " ++ dget nvp (toL "Channel")) else none)
    , (if aps ≠ [] then some (toL "Address: " ++ joinSep (toL ", ") aps) else none) ])

/-- A string with no leading and no trailing whitespace: `strip` fixes it. -/
def Stripped (s : List Char) : Prop := strip s = s

/-- Input with a second occurrence of the pattern inside a matched pair
line. -/
def exC1 : List Char := toL "Name: Name: X\nValue: Y"

/-- The spec's date-fallback example: both White House dates, no primary. -/
def exC2 : List Char :=
  toL "Name: White House Date 1\nValue: May 1\nName: White House Date 3\nValue: May 3"

/-- The spec's split-on-first-colon example line. -/
def exC5 : List Char := toL "Note: see http://example.com:8080"

/-- Two matched pairs sharing one key. -/
def exC9 : List Char :=
  toL "Name: Total Number of People in Party\nValue: 4\nName: Total Number of People in Party\nValue: 5"

theorem stripped_nil : Stripped [] := rfl

theorem ws_of_head?_dropWhile {p : Char → Bool} {s : List Char} {c : Char}
    (h : (s.dropWhile p).head? = some c) : p c = false := by
  have hm := List.head?_dropWhile_not p s
  rw [h] at hm
  exact hm

theorem stripL_eq_self_iff (s : List Char) :
    stripL s = s ↔ ∀ c, s.head? = some c → isWS c = false := by
  unfold stripL
  rw [List.dropWhile_eq_self_iff]
  constructor
  · intro h c hc
    cases s with
    | nil => simp at hc
    | cons a as =>
      have ha := h (by simp)
      simp only [List.get_cons_zero] at ha
      simp only [List.head?_cons, Option.some.injEq] at hc
      rw [← hc]
      simpa using ha
  · intro h hl
    cases s with
    | nil => simp at hl
    | cons a as =>
      have ha := h a (by simp)
      simp [List.get_cons_zero, ha]

theorem stripR_eq_self_iff (s : List Char) :
    stripR s = s ↔ ∀ c, s.getLast? = some c → isWS c = false := by
  constructor
  · intro h c hc
    have h' : ((s.reverse.dropWhile isWS).reverse).reverse = s.reverse :=
      congrArg List.reverse h
    rw [List.reverse_reverse] at h'
    exact (stripL_eq_self_iff s.reverse).1 h' c (by rwa [List.head?_reverse])
  · intro h
    have h' : stripL s.reverse = s.reverse :=
      (stripL_eq_self_iff s.reverse).2
        (fun c hc => h c (by rwa [List.head?_reverse] at hc))
    show (s.reverse.dropWhile isWS).reverse = s
    rw [show s.reverse.dropWhile isWS = s.reverse from h', List.reverse_reverse]

theorem strip_eq_self_iff (s : List Char) :
    Stripped s ↔ stripL s = s ∧ stripR s = s := by
  constructor
  · intro h
    have hsuf : stripL s <:+ s := List.dropWhile_suffix isWS
    have hlen2 : (stripR (stripL s)).length ≤ (stripL s).length := by
      calc ((stripL s).reverse.dropWhile isWS).reverse.length
          = ((stripL s).reverse.dropWhile isWS).length := List.length_reverse _
        _ ≤ (stripL s).reverse.length := (List.dropWhile_suffix isWS).length_le
        _ = (stripL s).length := List.length_reverse _
    have h2 : stripR (stripL s) = s := h
    have hlen : s.length = (stripR (stripL s)).length := by
      conv_lhs => rw [← h2]
    have h1 : stripL s = s :=
      hsuf.eq_of_length (le_antisymm hsuf.length_le (hlen ▸ hlen2))
    refine ⟨h1, ?_⟩
    have h2 : strip s = s := h
    rw [strip, h1] at h2
    exact h2
  · intro hh
    show stripR (stripL s) = s
    rw [hh.1, hh.2]

theorem stripped_iff (s : List Char) :
    Stripped s ↔ (∀ c, s.head? = some c → isWS c = false) ∧
      (∀ c, s.getLast? = some c → isWS c = false) := by
  rw [strip_eq_self_iff, stripL_eq_self_iff, stripR_eq_self_iff]

theorem stripped_strip (s : List Char) : Stripped (strip s) := by
  rw [stripped_iff]
  constructor
  · intro c hc
    obtain ⟨w, hw⟩ := List.dropWhile_suffix (l := (stripL s).reverse) isWS
    have ht : strip s ++ w.reverse = stripL s := by
      have h2 := congrArg List.reverse hw
      rw [List.reverse_append, List.reverse_reverse] at h2
      exact h2
    have hh : (stripL s).head? = some c := by
      rw [← ht, List.head?_append, hc]
      rfl
    exact ws_of_head?_dropWhile hh
  · intro c hc
    have hh : ((stripL s).reverse.dropWhile isWS).head? = some c := by
      rw [← List.getLast?_reverse]
      exact hc
    exact ws_of_head?_dropWhile hh

theorem stripped_append_wrap {a m b : List Char} (ha : Stripped a) (ha0 : a ≠ [])
    (hb : Stripped b) (hb0 : b ≠ []) : Stripped (a ++ m ++ b) := by
  rw [stripped_iff]
  constructor
  · intro c hc
    rw [List.append_assoc, List.head?_append_of_ne_nil a ha0] at hc
    exact ((stripped_iff a).1 ha).1 c hc
  · intro c hc
    rw [List.getLast?_append] at hc
    rcases hx : b.getLast? with _ | x
    · exact absurd (List.getLast?_eq_none_iff.mp hx) hb0
    · rw [hx, Option.or_some] at hc
      injection hc with hc
      exact hc ▸ ((stripped_iff b).1 hb).2 x hx

theorem stripped_label_seg {v : List Char} (c : Char) (rest : List Char)
    (hc : isWS c = false) (hv : Stripped v) (hv0 : v ≠ []) :
    Stripped ((c :: rest) ++ v) ∧ (c :: rest) ++ v ≠ [] := by
  constructor
  · rw [stripped_iff]
    constructor
    · intro d hd
      rw [List.cons_append, List.head?_cons] at hd
      injection hd with hd
      exact hd ▸ hc
    · intro d hd
      rw [List.getLast?_append] at hd
      rcases hx : v.getLast? with _ | x
      · exact absurd (List.getLast?_eq_none_iff.mp hx) hv0
      · rw [hx, Option.or_some] at hd
        injection hd with hd
        exact hd ▸ ((stripped_iff v).1 hv).2 x hx
  · simp

theorem joinSep_ne_nil (sep : List Char) :
    ∀ l : List (List Char), l ≠ [] → (∀ x ∈ l, x ≠ []) → joinSep sep l ≠ []
  | [], h, _ => absurd rfl h
  | [x], _, h => by simpa [joinSep] using h x (by simp)
  | x :: y :: ys, _, h => by
    have hx := h x (by simp)
    simp [joinSep, List.append_eq_nil, hx]

theorem stripped_joinSep (sep : List Char) :
    ∀ l : List (List Char), (∀ x ∈ l, Stripped x ∧ x ≠ []) → Stripped (joinSep sep l)
  | [], _ => stripped_nil
  | [x], h => by simpa [joinSep] using (h x (by simp)).1
  | x :: y :: ys, h => by
    have hx := h x (by simp)
    have ih := stripped_joinSep sep (y :: ys)
      (fun z hz => h z (List.mem_cons_of_mem x hz))
    have hne := joinSep_ne_nil sep (y :: ys) (by simp)
      (fun z hz => (h z (List.mem_cons_of_mem x hz)).2)
    show Stripped (x ++ sep ++ joinSep sep (y :: ys))
    exact stripped_append_wrap hx.1 hx.2 ih hne

theorem stripped_dget {d : Dict} (h : ∀ p ∈ d, Stripped p.2) (k : List Char) :
    Stripped (dget d k) := by
  unfold dget
  cases hf : d.find? (fun p => decide (p.1 = k)) with
  | none => exact stripped_nil
  | some p => exact h p (List.mem_of_find?_eq_some hf)

theorem foldl_dinsert_eq (ps : List (List Char × List Char)) :
    ∀ acc : Dict, ps.foldl (fun d p => dinsert d p.1 p.2) acc = ps.reverse ++ acc := by
  induction ps with
  | nil => intro acc; simp
  | cons p ps ih =>
    intro acc
    rw [List.foldl_cons, ih]
    simp [dinsert]

theorem toDict_eq_reverse (ps : List (List Char × List Char)) :
    toDict ps = ps.reverse := by
  simpa using foldl_dinsert_eq ps []

theorem foldl_flatStep_eq (lines : List (List Char)) :
    ∀ acc : Dict, lines.foldl flatStep acc =
      (lines.filterMap
        (fun l => (splitFirstColon l).map (fun p => (strip p.1, strip p.2)))).reverse
        ++ acc := by
  induction lines with
  | nil => intro acc; simp
  | cons l ls ih =>
    intro acc
    rw [List.foldl_cons]
    cases h : splitFirstColon l with
    | none => rw [show flatStep acc l = acc by simp [flatStep, h], ih]
              simp [List.filterMap_cons, h]
    | some p => rw [show flatStep acc l = (strip p.1, strip p.2) :: acc by
                      simp [flatStep, h, dinsert], ih]
                simp [List.filterMap_cons, h]

theorem flatFields_eq (lines : List (List Char)) :
    flatFields lines =
      (lines.filterMap
        (fun l => (splitFirstColon l).map (fun p => (strip p.1, strip p.2)))).reverse := by
  simpa using foldl_flatStep_eq lines []

theorem flatFields_values_stripped (lines : List (List Char)) :
    ∀ p ∈ flatFields lines, Stripped p.2 := by
  rw [flatFields_eq]
  intro p hp
  rw [List.mem_reverse] at hp
  obtain ⟨l, _, hl⟩ := List.mem_filterMap.1 hp
  cases h : splitFirstColon l with
  | none => rw [h] at hl; simp at hl
  | some q =>
    rw [h] at hl
    simp at hl
    rw [← hl]
    exact stripped_strip _

theorem scanPairs_values_stripped :
    ∀ ls : List (List Char), ∀ p ∈ scanPairs ls, Stripped p.2
  | [] => by simp [scanPairs]
  | [l] => by simp [scanPairs]
  | l1 :: l2 :: rest => by
    intro p hp
    by_cases h : (startsWith (toL "Name:") l1 && startsWith (toL "Value:") l2) = true
    · rw [scanPairs, if_pos h] at hp
      rcases List.mem_cons.1 hp with hq | hq
      · rw [hq]
        exact stripped_strip _
      · exact scanPairs_values_stripped rest p hq
    · rw [scanPairs, if_neg h] at hp
      exact scanPairs_values_stripped (l2 :: rest) p hp

theorem nvp_values_stripped (lines : List (List Char)) :
    ∀ p ∈ name_value_pairs lines, Stripped p.2 := by
  intro p hp
  rw [name_value_pairs, toDict_eq_reverse, List.mem_reverse] at hp
  exact scanPairs_values_stripped lines p hp

theorem date_requested_stripped (nvp : Dict) (h : ∀ p ∈ nvp, Stripped p.2) :
    Stripped (date_requested nvp) := by
  simp only [date_requested]
  by_cases h0 : dget nvp (toL "Tour Requested Date") = []
  · rw [if_pos h0]
    by_cases h13 : dget nvp (toL "White House Date 1") ≠ [] ∧
        dget nvp (toL "White House Date 3") ≠ []
    · rw [if_pos h13]
      exact stripped_append_wrap (stripped_dget h _) h13.1 (stripped_dget h _) h13.2
    · rw [if_neg h13]
      by_cases h1 : dget nvp (toL "White House Date 1") ≠ []
      · rw [if_pos h1]
        exact stripped_dget h _
      · rw [if_neg h1]
        exact stripped_dget h _
  · rw [if_neg h0]
    exact stripped_dget h _

theorem comments_parts_all_stripped (data nvp : Dict)
    (hd : ∀ p ∈ data, Stripped p.2) (hn : ∀ p ∈ nvp, Stripped p.2) :
    ∀ x ∈ comments_parts data nvp, Stripped x ∧ x ≠ [] := by
  intro x hx
  simp only [comments_parts, List.mem_append, List.mem_ite_nil_right,
    List.mem_singleton] at hx
  rcases hx with ((⟨h1, rfl⟩ | ⟨h2, rfl⟩) | ⟨h3, rfl⟩) | ⟨h4, rfl⟩
  · rw [show toL "Tour: " = 'T' :: toL "our: " from rfl]
    exact stripped_label_seg 'T' (toL "our: ") (by decide)
      (stripped_dget hn _) h1
  · rw [show toL "Visitors: " = 'V' :: toL "isitors: " from rfl]
    exact stripped_label_seg 'V' (toL "isitors: ") (by decide)
      (stripped_dget hn _) h2
  · rw [show toL "Channel: " = 'C' :: toL "hannel: " from rfl]
    exact stripped_label_seg 'C' (toL "hannel: ") (by decide)
      (stripped_dget hn _) h3
  · have hmem : ∀ z ∈ (([toL "Address1", toL "Address2", toL "City", toL "State",
        toL "ZipCode"].map (fun f => dget data f)).filter (fun v => v ≠ [])),
        Stripped z ∧ z ≠ [] := by
      intro z hz
      rw [List.mem_filter] at hz
      obtain ⟨hz1, hz2⟩ := hz
      obtain ⟨f, _, hf⟩ := List.mem_map.1 hz1
      refine ⟨?_, by simpa using hz2⟩
      rw [← hf]
      exact stripped_dget hd f
    rw [show toL "Address: " = 'A' :: toL "ddress: " from rfl]
    exact stripped_label_seg 'A' (toL "ddress: ") (by decide)
      (stripped_joinSep (toL ", ") _ hmem)
      (joinSep_ne_nil (toL ", ") _ h4 (fun z hz => (hmem z hz).2))

theorem comments_parts_eq_spec (data nvp : Dict) :
    joinSep (toL "; ") (comments_parts data nvp) = commentsSpec data nvp := by
  simp only [comments_parts, commentsSpec]
  by_cases h4 : (([toL "Address1", toL "Address2", toL "City", toL "State",
      toL "ZipCode"].map (fun f => dget data f)).filter (fun v => v ≠ [])) ≠ []
  · rw [if_pos h4, if_pos h4]
    by_cases h1 : dget nvp (toL "Tours Requested") ≠ [] <;>
      by_cases h2 : dget nvp (toL "Name of Visitors") ≠ [] <;>
        by_cases h3 : dget nvp (toL "Channel") ≠ [] <;>
          simp [h1, h2, h3]
  · rw [if_neg h4, if_neg h4]
    by_cases h1 : dget nvp (toL "Tours Requested") ≠ [] <;>
      by_cases h2 : dget nvp (toL "Name of Visitors") ≠ [] <;>
        by_cases h3 : dget nvp (toL "Channel") ≠ [] <;>
          simp [h1, h2, h3]

/-- C1 (counterexample): the claim as stated is false on the code.  On the
input whose matched line holds a second occurrence of the pattern, the
stored key is the line with EVERY occurrence of the substring removed
(Python `str.replace`), not the once-from-the-front strip the claim
predicts: the claim would store the key `Name: X`, the code stores `X`. -/
theorem c1_claim_counterexample :
    scanPairs (linesOf exC1) = [(toL "X", toL "Y")] ∧
    strip (dropPre (toL "Name:") (toL "Name: Name: X")) = toL "Name: X" ∧
    dget (name_value_pairs (linesOf exC1)) (toL "Name: X") = [] ∧
    dget (name_value_pairs (linesOf exC1)) (toL "X") = toL "Y" := by
  decide

/-- C1 (amended): for every matched Name/Value line pair, the key stored is
line i with every occurrence of the substring `Name:` removed and then
trimmed, and the stored value is line i+1 with every occurrence of
`Value:` removed and then trimmed (occurrences elsewhere in the line are
removed as well, not preserved). -/
theorem c1_matched_pair_key_value (l1 l2 : List Char) (rest : List (List Char))
    (h1 : startsWith (toL "Name:") l1 = true)
    (h2 : startsWith (toL "Value:") l2 = true) :
    scanPairs (l1 :: l2 :: rest) =
      (strip (removeAll (toL "Name:") l1), strip (removeAll (toL "Value:") l2))
        :: scanPairs rest := by
  rw [scanPairs, if_pos (by rw [h1, h2]; rfl)]

theorem c1_matched_pair_key_value_witness :
    scanPairs [toL "Name: Name: X", toL "Value: Y"] =
      [(strip (removeAll (toL "Name:") (toL "Name: Name: X")),
        strip (removeAll (toL "Value:") (toL "Value: Y")))] := by
  have h := c1_matched_pair_key_value (toL "Name: Name: X") (toL "Value: Y") []
    (by decide) (by decide)
  simpa [scanPairs] using h

/-- C2: dates_requested follows the fallback chain: the Tour Requested Date
paired value when non-empty; otherwise the two White House dates joined by
space-dash-space when both are non-empty; otherwise White House Date 1
alone when it is non-empty; otherwise the empty string (also when only
date 3 is non-empty). -/
theorem c2_dates_fallback_chain (raw : List Char) :
    (extract_data raw).dates_requested =
      date_requested (name_value_pairs (linesOf raw)) ∧
    ∀ nvp : Dict,
      (dget nvp (toL "Tour Requested Date") ≠ [] →
        date_requested nvp = dget nvp (toL "Tour Requested Date")) ∧
      (dget nvp (toL "Tour Requested Date") = [] →
        dget nvp (toL "White House Date 1") ≠ [] →
        dget nvp (toL "White House Date 3") ≠ [] →
        date_requested nvp =
          dget nvp (toL "White House Date 1") ++ toL " - " ++
            dget nvp (toL "White House Date 3")) ∧
      (dget nvp (toL "Tour Requested Date") = [] →
        dget nvp (toL "White House Date 1") ≠ [] →
        dget nvp (toL "White House Date 3") = [] →
        date_requested nvp = dget nvp (toL "White House Date 1")) ∧
      (dget nvp (toL "Tour Requested Date") = [] →
        dget nvp (toL "White House Date 1") = [] →
        date_requested nvp = []) := by
  refine ⟨rfl, fun nvp => ⟨?_, ?_, ?_, ?_⟩⟩
  · intro h0
    simp only [date_requested]
    rw [if_neg h0]
  · intro h0 h1 h3
    simp only [date_requested]
    rw [if_pos h0, if_pos ⟨h1, h3⟩]
  · intro h0 h1 h3
    simp only [date_requested]
    rw [if_pos h0, if_neg (fun hc => hc.2 h3), if_pos h1]
  · intro h0 h1
    simp only [date_requested]
    rw [if_pos h0, if_neg (fun hc => hc.1 h1), if_neg (fun hd => hd h1), h0]

theorem c2_dates_fallback_chain_witness :
    (extract_data exC2).dates_requested = toL "May 1 - May 3" := by
  have h := c2_dates_fallback_chain exC2
  rw [h.1, (h.2 (name_value_pairs (linesOf exC2))).2.1 (by decide) (by decide)
    (by decide)]
  decide

/-- C3: the comments field is the semicolon-space join of the segments
collected in the fixed order Tour, Visitors, Channel, Address, each of the
first three included exactly when its paired value is non-empty, and the
Address segment, whose body is the comma-space join of the non-empty
values of the five flat address fields in their fixed order, included
exactly when at least one of the five is non-empty; it is the empty string
when no segment qualifies. -/
theorem c3_comments_assembly (raw : List Char) :
    (extract_data raw).comments =
      commentsSpec (flatFields (linesOf raw)) (name_value_pairs (linesOf raw)) := by
  have e : (extract_data raw).comments =
      joinSep (toL "; ") (comments_parts (flatFields (linesOf raw))
        (name_value_pairs (linesOf raw))) := rfl
  rw [e, comments_parts_eq_spec]

/-- C4: the paired map is built by a single in-order scan with a two-line
lookahead: a pair is recorded exactly when line i starts with `Name:`,
line i+1 exists, and line i+1 starts with `Value:`; after a match the scan
advances by two lines (consuming both), otherwise by one; in particular a
`Name:` line not immediately followed by a `Value:` line contributes
nothing. -/
theorem c4_scan_lookahead (l1 l2 : List Char) (rest : List (List Char)) :
    (∀ raw : List Char,
      name_value_pairs (linesOf raw) = toDict (scanPairs (linesOf raw))) ∧
    scanPairs ([] : List (List Char)) = [] ∧
    scanPairs [l1] = [] ∧
    (startsWith (toL "Name:") l1 = true → startsWith (toL "Value:") l2 = true →
      ∃ kv, scanPairs (l1 :: l2 :: rest) = kv :: scanPairs rest) ∧
    (¬(startsWith (toL "Name:") l1 = true ∧ startsWith (toL "Value:") l2 = true) →
      scanPairs (l1 :: l2 :: rest) = scanPairs (l2 :: rest)) := by
  refine ⟨fun _ => rfl, rfl, rfl, ?_, ?_⟩
  · intro h1 h2
    exact ⟨_, by rw [scanPairs, if_pos (by rw [h1, h2]; rfl)]⟩
  · intro h
    rw [scanPairs, if_neg (by simpa [Bool.and_eq_true] using h)]

theorem c4_scan_lookahead_witness :
    scanPairs [toL "Name: X", toL "foo"] = scanPairs [toL "foo"] :=
  (c4_scan_lookahead (toL "Name: X") (toL "foo") []).2.2.2.2 (by decide)

/-- C5: the flat map is built from every trimmed non-empty line containing
at least one colon by splitting on the first colon only, trimming both
halves, with no case normalization of keys and the last occurrence of a
key in line order winning; the spec's URL example keeps everything after
the first colon. -/
theorem c5_flat_first_colon_last_wins :
    (∀ (lines : List (List Char)) (k : List Char),
      dget (flatFields lines) k = flatSpecLookup lines k) ∧
    dget (flatFields (linesOf exC5)) (toL "Note") =
      toL "see http://example.com:8080" := by
  constructor
  · intro lines k
    unfold dget flatSpecLookup
    rw [flatFields_eq, ← List.filterMap_reverse]
    rw [show lines.reverse.filterMap
          (fun l => (splitFirstColon l).map (fun p => (strip p.1, strip p.2))) =
        (lines.reverse.filterMap splitFirstColon).map
          (fun p => (strip p.1, strip p.2)) from (List.map_filterMap _ _ _).symm]
    rw [List.find?_map]
    rw [show ((fun p : List Char × List Char => decide (p.1 = k)) ∘
        (fun p : List Char × List Char => (strip p.1, strip p.2))) =
        (fun p : List Char × List Char => decide (strip p.1 = k)) from rfl]
    cases (lines.reverse.filterMap splitFirstColon).find?
        (fun p => decide (strip p.1 = k)) with
    | none => rfl
    | some p => rfl
  · decide

/-- C6: the name field equals FirstName and LastName joined by a single
space and then trimmed, a missing key being read as the empty string; when
both keys are absent the name is exactly the empty string. -/
theorem c6_name_concat (raw : List Char) :
    (extract_data raw).name =
      strip (dget (flatFields (linesOf raw)) (toL "FirstName") ++ toL " " ++
        dget (flatFields (linesOf raw)) (toL "LastName")) ∧
    (dget (flatFields (linesOf raw)) (toL "FirstName") = [] →
      dget (flatFields (linesOf raw)) (toL "LastName") = [] →
      (extract_data raw).name = []) := by
  refine ⟨rfl, ?_⟩
  intro h1 h2
  have e : (extract_data raw).name =
      strip (dget (flatFields (linesOf raw)) (toL "FirstName") ++ toL " " ++
        dget (flatFields (linesOf raw)) (toL "LastName")) := rfl
  rw [e, h1, h2]
  decide

theorem c6_name_concat_witness : (extract_data (toL "no colon here")).name = [] :=
  (c6_name_concat (toL "no colon here")).2 (by decide) (by decide)

/-- C7: extraction is total on every input string, including the empty one
(established by the type of `extract_data`, whose 8 fields are all strings
and always present); the rsvp_link and unable fields are the empty string
for every input. -/
theorem c7_total_fixed_fields (raw : List Char) :
    (extract_data raw).rsvp_link = [] ∧ (extract_data raw).unable = [] :=
  ⟨rfl, rfl⟩

/-- C8: extraction is a deterministic pure function of the input text:
identical input text always yields an identical record (in this embedding
`extract_data` takes no argument other than the text, so there is no
hidden state, call history, or time to depend on). -/
theorem c8_deterministic (s t : List Char) (h : s = t) :
    extract_data s = extract_data t := by
  rw [h]

theorem c8_deterministic_witness :
    extract_data (toL "x") = extract_data (toL "x") :=
  c8_deterministic (toL "x") (toL "x") rfl

/-- C9: when several matched pairs produce the same key, the paired map
binds that key to the value of the pair occurring last in line order
(overwrite semantics), and the party_of field drawn from the map reflects
that last pair. -/
theorem c9_paired_last_wins (raw : List Char)
    (ps₁ ps₂ : List (List Char × List Char)) (k v : List Char)
    (hsplit : scanPairs (linesOf raw) = ps₁ ++ (k, v) :: ps₂)
    (hlast : ∀ v', (k, v') ∉ ps₂) :
    dget (name_value_pairs (linesOf raw)) k = v ∧
    (k = toL "Total Number of People in Party" →
      (extract_data raw).party_of = v) := by
  have hmain : dget (name_value_pairs (linesOf raw)) k = v := by
    unfold dget
    rw [name_value_pairs, toDict_eq_reverse, hsplit, List.reverse_append,
      List.reverse_cons, List.find?_append, List.find?_append]
    have hnone : ps₂.reverse.find? (fun p => decide (p.1 = k)) = none := by
      rw [List.find?_eq_none]
      intro x hx
      rw [List.mem_reverse] at hx
      simp only [decide_eq_true_eq]
      intro hxk
      have hx' : (x.1, x.2) ∈ ps₂ := by simpa using hx
      rw [hxk] at hx'
      exact hlast x.2 hx'
    have hone : ([(k, v)] : Dict).find? (fun p => decide (p.1 = k)) =
        some (k, v) := by simp
    rw [hnone, hone]
    rfl
  refine ⟨hmain, fun hk => ?_⟩
  have e : (extract_data raw).party_of =
      dget (name_value_pairs (linesOf raw))
        (toL "Total Number of People in Party") := rfl
  rw [e, ← hk]
  exact hmain

theorem c9_paired_last_wins_witness : (extract_data exC9).party_of = toL "5" :=
  (c9_paired_last_wins exC9
    [(toL "Total Number of People in Party", toL "4")] []
    (toL "Total Number of People in Party") (toL "5")
    (by decide) (by simp)).2 rfl

/-- C10: every one of the 8 string fields of the returned record has no
leading and no trailing whitespace, for every input. -/
theorem c10_all_fields_trimmed (raw : List Char) :
    Stripped (extract_data raw).name ∧
    Stripped (extract_data raw).email ∧
    Stripped (extract_data raw).phone ∧
    Stripped (extract_data raw).dates_requested ∧
    Stripped (extract_data raw).party_of ∧
    Stripped (extract_data raw).rsvp_link ∧
    Stripped (extract_data raw).unable ∧
    Stripped (extract_data raw).comments := by
  have hd := flatFields_values_stripped (linesOf raw)
  have hn := nvp_values_stripped (linesOf raw)
  refine ⟨?_, ?_, ?_, ?_, ?_, ?_, ?_, ?_⟩
  · show Stripped (strip (dget (flatFields (linesOf raw)) (toL "FirstName") ++
      toL " " ++ dget (flatFields (linesOf raw)) (toL "LastName")))
    exact stripped_strip _
  · show Stripped (dget (flatFields (linesOf raw)) (toL "EmailAddress"))
    exact stripped_dget hd _
  · show Stripped (dget (flatFields (linesOf raw)) (toL "PhoneNumber"))
    exact stripped_dget hd _
  · show Stripped (date_requested (name_value_pairs (linesOf raw)))
    exact date_requested_stripped _ hn
  · show Stripped (dget (name_value_pairs (linesOf raw))
      (toL "Total Number of People in Party"))
    exact stripped_dget hn _
  · exact stripped_nil
  · exact stripped_nil
  · show Stripped (joinSep (toL "; ") (comments_parts (flatFields (linesOf raw))
      (name_value_pairs (linesOf raw))))
    exact stripped_joinSep _ _ (comments_parts_all_stripped _ _ hd hn)
